import Mathlib

/-!
Verification of the multimodal projector module
(`dispider/model/multimodal_projector/builder.py`).

Tensor values are embedded over `ℚ`; tensors are nested lists (rows of
channel vectors) or, where a reshape chain only reinterprets indices,
functions of flat indices.  Transcendental scalar functions of the source
(softmax's `exp`, `GELU`, layer-norm's reciprocal square root, the
attention scale `C ** -0.5`) are abstracted as function/scalar parameters,
exactly as the learned weights are; all structural arithmetic (sums, means,
index permutations, normalizations) is embedded exactly.  `int(math.sqrt n)`
is embedded as `Nat.sqrt n` (they agree at all realistic magnitudes).
`detach` is the identity on values (autograd is out of scope).
-/

/-- Configuration object as read by `build_vision_projector`
(builder.py lines 590-665).  `mm_projector_type = none` models a config
object without that attribute (the `getattr` call at line 591 then yields
the default `"linear"`); `pool_num = none` models absence of `pool_num`
(the `hasattr` check at line 640 then yields `1`). -/
structure ProjectorConfig where
  mm_projector_type : Option String
  mm_hidden_size : ℕ
  hidden_size : ℕ
  n_slot : ℕ
  resolution : ℕ
  pool_num : Option ℕ

/-- Decimal value of a digit string, as `int(...)` reads the capture group of
the regex at builder.py line 596. -/
def digitsToNat (ds : List Char) : ℕ :=
  ds.foldl (fun n c => 10 * n + (c.toNat - 48)) 0

/-- Matching of the regex `^mlp(\d+)x_gelu$` of builder.py line 596: the
string must be `mlp`, then a non-empty run of decimal digits (the capture
group, returned as its numeric value), then exactly `x_gelu`.  Since `x` is
not a digit, the greedy `\d+` is the maximal digit run. -/
def mlpGeluNum (s : String) : Option ℕ :=
  match s.data with
  | 'm' :: 'l' :: 'p' :: rest =>
    let ds := rest.takeWhile Char.isDigit
    match rest.dropWhile Char.isDigit with
    | ['x', '_', 'g', 'e', 'l', 'u'] => if ds.isEmpty then none else some (digitsToNat ds)
    | _ => none
  | _ => none

/-- Whether `s` matches the regex `^mlp(\d+)x_gelu$` (line 596). -/
def isMlpGeluType (s : String) : Bool :=
  (mlpGeluNum s).isSome

/-- The architecture built by `build_vision_projector`, one constructor per
variant, carrying the dimension arguments the source wires in
(builder.py lines 590-663). `mlpGelu depth inF outF` is the sequential
`Linear(inF, outF)` followed by `depth - 1` blocks of `GELU` then
`Linear(outF, outF)` (lines 596-603 and the inlined copies at 614-620,
624-630, 633-639, 643-649, 652-658). -/
inductive Projector where
  | linearP (inF outF : ℕ)
  | mlpGelu (depth inF outF : ℕ)
  | identityP
  | slotP (numSlots encDims iters hiddenDim outDim : ℕ)
  | perceiverP (numQuery numVisionF outSize : ℕ)
  | multiP (mlp : Projector) (sa : Projector)
  | compressP (mlp : Projector) (numSlot embedDim : ℕ)
  | poolP (mlp : Projector) (resolution poolNum : ℕ)
  | baseP (mlp : Projector)
  | baseMixP (mlp : Projector)
  | qwenResamplerP (gridSize embedDim numHeads kvDim tgtEmbedDim srcKvDim : ℕ)
deriving DecidableEq, Repr

/-- Shallow embedding of `build_vision_projector` (builder.py lines 590-665):
the same dispatch chain on `projector_type`, in source order, returning the
constructed architecture, or the `ValueError` message of line 665 when no
branch matches. -/
def buildVisionProjector (cfg : ProjectorConfig) : Except String Projector :=
  let ty := cfg.mm_projector_type.getD "linear"
  if ty = "linear" then
    .ok (.linearP cfg.mm_hidden_size cfg.hidden_size)
  else if isMlpGeluType ty then
    .ok (.mlpGelu ((mlpGeluNum ty).getD 0) cfg.mm_hidden_size cfg.hidden_size)
  else if ty = "identity" then
    .ok .identityP
  else if ty = "slot" then
    .ok (.slotP cfg.n_slot cfg.mm_hidden_size 3 cfg.hidden_size cfg.hidden_size)
  else if ty = "perceiver" then
    .ok (.perceiverP cfg.n_slot cfg.mm_hidden_size cfg.hidden_size)
  else if ty = "mlpslot" then
    .ok (.multiP (.mlpGelu 2 cfg.mm_hidden_size cfg.hidden_size)
      (.slotP cfg.n_slot cfg.mm_hidden_size 3 cfg.hidden_size cfg.hidden_size))
  else if ty = "compress" then
    .ok (.compressP (.mlpGelu 2 (4 * cfg.mm_hidden_size) cfg.hidden_size)
      cfg.n_slot cfg.hidden_size)
  else if ty = "pool" then
    .ok (.poolP (.mlpGelu 2 (4 * cfg.mm_hidden_size) cfg.hidden_size)
      cfg.resolution (cfg.pool_num.getD 1))
  else if ty = "base" then
    .ok (.baseP (.mlpGelu 2 cfg.mm_hidden_size cfg.hidden_size))
  else if ty = "base_mix" then
    .ok (.baseMixP (.mlpGelu 2 (4 * cfg.mm_hidden_size) cfg.hidden_size))
  else if ty = "resampler" then
    .ok (.qwenResamplerP (Nat.sqrt cfg.n_slot) 4096 (4096 / 128) 1664
      cfg.hidden_size cfg.mm_hidden_size)
  else
    .error ("Unknown projector type: " ++ ty)

/-- `IdentityMap.forward` (builder.py lines 16-17): returns its input
unchanged (the extra positional and keyword arguments are ignored). -/
def identityMapForward (x : α) : α := x

/-- The channel width (size of the last dimension) of each variant's forward
output, as a function of the input channel width `inputW`.  Read off the last
operation of each forward: `linearP`/`mlpGelu` end in `Linear(_, outF)`
(lines 594, 599-602); `identityP` returns the input (line 17); `slotP` ends in
`head = Linear(_, out_dim)` (lines 73, 108); `perceiverP` ends in
`head = Linear(_, out_size)` (lines 126, 158); `multiP` emits rows of its
`mlp` branch (and of its `sa` branch at training time, lines 169-194);
`compressP`, `poolP`, `baseP`, `baseMixP` emit rows produced by their `mlp`
(the queries `compressP` appends are rows of width `embedDim`, which the
factory wires equal to the mlp output width, lines 422, 631); `qwenResamplerP`
ends in `out @ proj` with `proj : embed_dim × tgt_embed_dim` (lines 379, 409). -/
def outWidth (inputW : ℕ) : Projector → ℕ
  | .linearP _ o => o
  | .mlpGelu _ _ o => o
  | .identityP => inputW
  | .slotP _ _ _ _ o => o
  | .perceiverP _ _ o => o
  | .multiP m _ => outWidth inputW m
  | .compressP m _ _ => outWidth inputW m
  | .poolP m _ _ => outWidth inputW m
  | .baseP m => outWidth inputW m
  | .baseMixP m => outWidth inputW m
  | .qwenResamplerP _ _ _ _ t _ => t

/-- The set of projector-type strings the dispatch chain of
`build_vision_projector` recognizes, written from the spec's list
(spec section 4.1): this is the spec-side characterization against which the
source's dispatch is compared. -/
def recognizedTypeSpec (s : String) : Bool :=
  s == "linear" || isMlpGeluType s || s == "identity" || s == "slot" ||
  s == "perceiver" || s == "mlpslot" || s == "compress" || s == "pool" ||
  s == "base" || s == "base_mix" || s == "resampler"

/-- C1 (amended): for every configuration on which `build_vision_projector`
succeeds, the returned module's output channel width equals the configured
`hidden_size` for every variant EXCEPT `identity`, whose output width equals
the input width instead (it returns its input unchanged); for the `mlpslot`
variant both the mlp branch and the slot-attention branch have output width
`hidden_size`. -/
theorem C1_output_width_amended (cfg : ProjectorConfig) (p : Projector) (w : ℕ)
    (hb : buildVisionProjector cfg = .ok p) :
    (p = .identityP → outWidth w p = w) ∧
    (p ≠ .identityP → outWidth w p = cfg.hidden_size) ∧
    (∀ m s, p = .multiP m s → outWidth w s = cfg.hidden_size) := by
  simp only [buildVisionProjector] at hb
  by_cases h1 : cfg.mm_projector_type.getD "linear" = "linear"
  · rw [if_pos h1] at hb; injection hb with hb; subst hb
    refine ⟨?_, ?_, ?_⟩ <;> intros <;> simp_all [outWidth]
  rw [if_neg h1] at hb
  by_cases h2 : isMlpGeluType (cfg.mm_projector_type.getD "linear") = true
  · rw [if_pos h2] at hb; injection hb with hb; subst hb
    refine ⟨?_, ?_, ?_⟩ <;> intros <;> simp_all [outWidth]
  rw [if_neg h2] at hb
  by_cases h3 : cfg.mm_projector_type.getD "linear" = "identity"
  · rw [if_pos h3] at hb; injection hb with hb; subst hb
    refine ⟨?_, ?_, ?_⟩ <;> intros <;> simp_all [outWidth]
  rw [if_neg h3] at hb
  by_cases h4 : cfg.mm_projector_type.getD "linear" = "slot"
  · rw [if_pos h4] at hb; injection hb with hb; subst hb
    refine ⟨?_, ?_, ?_⟩ <;> intros <;> simp_all [outWidth]
  rw [if_neg h4] at hb
  by_cases h5 : cfg.mm_projector_type.getD "linear" = "perceiver"
  · rw [if_pos h5] at hb; injection hb with hb; subst hb
    refine ⟨?_, ?_, ?_⟩ <;> intros <;> simp_all [outWidth]
  rw [if_neg h5] at hb
  by_cases h6 : cfg.mm_projector_type.getD "linear" = "mlpslot"
  · rw [if_pos h6] at hb; injection hb with hb; subst hb
    refine ⟨fun h => Projector.noConfusion h, fun _ => by simp [outWidth], ?_⟩
    intro m s h
    injection h with hm hs'
    subst hs'
    simp [outWidth]
  rw [if_neg h6] at hb
  by_cases h7 : cfg.mm_projector_type.getD "linear" = "compress"
  · rw [if_pos h7] at hb; injection hb with hb; subst hb
    refine ⟨?_, ?_, ?_⟩ <;> intros <;> simp_all [outWidth]
  rw [if_neg h7] at hb
  by_cases h8 : cfg.mm_projector_type.getD "linear" = "pool"
  · rw [if_pos h8] at hb; injection hb with hb; subst hb
    refine ⟨?_, ?_, ?_⟩ <;> intros <;> simp_all [outWidth]
  rw [if_neg h8] at hb
  by_cases h9 : cfg.mm_projector_type.getD "linear" = "base"
  · rw [if_pos h9] at hb; injection hb with hb; subst hb
    refine ⟨?_, ?_, ?_⟩ <;> intros <;> simp_all [outWidth]
  rw [if_neg h9] at hb
  by_cases h10 : cfg.mm_projector_type.getD "linear" = "base_mix"
  · rw [if_pos h10] at hb; injection hb with hb; subst hb
    refine ⟨?_, ?_, ?_⟩ <;> intros <;> simp_all [outWidth]
  rw [if_neg h10] at hb
  by_cases h11 : cfg.mm_projector_type.getD "linear" = "resampler"
  · rw [if_pos h11] at hb; injection hb with hb; subst hb
    refine ⟨?_, ?_, ?_⟩ <;> intros <;> simp_all [outWidth]
  rw [if_neg h11] at hb
  exact Except.noConfusion hb

/-- Witness for C1 (amended) at a concrete configuration of type `linear`
with `mm_hidden_size = 3`, `hidden_size = 5`. -/
theorem C1_output_width_amended_witness :
    outWidth 3 (Projector.linearP 3 5) = 5 := by
  have h := C1_output_width_amended ⟨some "linear", 3, 5, 0, 0, none⟩
    (.linearP 3 5) 3 (by rfl)
  exact h.2.1 (by simp)

/-- C1 counterexample: the claim as stated is false for the `identity`
variant.  With `mm_projector_type = "identity"`, `mm_hidden_size = 3` and
`hidden_size = 5`, construction succeeds and returns `IdentityMap`, whose
forward returns the well-shaped width-3 input unchanged, so the output
channel width is 3, not the configured `hidden_size = 5`. -/
theorem C1_identity_counterexample :
    buildVisionProjector ⟨some "identity", 3, 5, 0, 0, none⟩ = .ok .identityP ∧
    identityMapForward [(0 : ℚ), 0, 0] = [0, 0, 0] ∧
    ((identityMapForward [(0 : ℚ), 0, 0]).length = 5 → False) :=
  ⟨by rfl, rfl, by decide⟩

/-- C2: whenever the (defaulted) `mm_projector_type` string is not among the
recognized set, `build_vision_projector` fails with the `ValueError` of line
665, whose message contains the offending string; and this is the only
explicit error path: on every recognized string construction succeeds. -/
theorem C2_unrecognized_error (cfg : ProjectorConfig) (s : String)
    (hs : cfg.mm_projector_type.getD "linear" = s) :
    (recognizedTypeSpec s = false →
       buildVisionProjector cfg = .error ("Unknown projector type: " ++ s) ∧
       ∃ a b : String, "Unknown projector type: " ++ s = a ++ s ++ b) ∧
    (recognizedTypeSpec s = true → ∃ p, buildVisionProjector cfg = .ok p) := by
  constructor
  · intro hr
    simp only [recognizedTypeSpec, Bool.or_eq_false_iff, beq_eq_false_iff_ne,
      ne_eq] at hr
    obtain ⟨⟨⟨⟨⟨⟨⟨⟨⟨⟨h1, h2⟩, h3⟩, h4⟩, h5⟩, h6⟩, h7⟩, h8⟩, h9⟩, h10⟩, h11⟩ := hr
    refine ⟨?_, "Unknown projector type: ", "", by simp⟩
    simp only [buildVisionProjector, hs]
    rw [if_neg h1, if_neg (by simp [h2]), if_neg h3, if_neg h4, if_neg h5,
      if_neg h6, if_neg h7, if_neg h8, if_neg h9, if_neg h10, if_neg h11]
  · intro hr
    simp only [buildVisionProjector, hs]
    by_cases h1 : s = "linear"
    · exact ⟨_, by rw [if_pos h1]⟩
    rw [if_neg h1]
    by_cases h2 : isMlpGeluType s = true
    · exact ⟨_, by rw [if_pos h2]⟩
    rw [if_neg h2]
    by_cases h3 : s = "identity"
    · exact ⟨_, by rw [if_pos h3]⟩
    rw [if_neg h3]
    by_cases h4 : s = "slot"
    · exact ⟨_, by rw [if_pos h4]⟩
    rw [if_neg h4]
    by_cases h5 : s = "perceiver"
    · exact ⟨_, by rw [if_pos h5]⟩
    rw [if_neg h5]
    by_cases h6 : s = "mlpslot"
    · exact ⟨_, by rw [if_pos h6]⟩
    rw [if_neg h6]
    by_cases h7 : s = "compress"
    · exact ⟨_, by rw [if_pos h7]⟩
    rw [if_neg h7]
    by_cases h8 : s = "pool"
    · exact ⟨_, by rw [if_pos h8]⟩
    rw [if_neg h8]
    by_cases h9 : s = "base"
    · exact ⟨_, by rw [if_pos h9]⟩
    rw [if_neg h9]
    by_cases h10 : s = "base_mix"
    · exact ⟨_, by rw [if_pos h10]⟩
    rw [if_neg h10]
    by_cases h11 : s = "resampler"
    · exact ⟨_, by rw [if_pos h11]⟩
    simp only [recognizedTypeSpec, Bool.or_eq_true, beq_iff_eq] at hr
    rcases hr with ((((((((((h | h) | h) | h) | h) | h) | h) | h) | h) | h) | h) <;>
      first
      | exact absurd h h1 | exact absurd h h2 | exact absurd h h3
      | exact absurd h h4 | exact absurd h h5 | exact absurd h h6
      | exact absurd h h7 | exact absurd h h8 | exact absurd h h9
      | exact absurd h h10 | exact absurd h h11

/-- Witness for C2 at the unrecognized string `"bogus"` and at the
recognized string `"slot"`. -/
theorem C2_unrecognized_error_witness :
    buildVisionProjector ⟨some "bogus", 3, 5, 0, 0, none⟩ =
      .error ("Unknown projector type: " ++ "bogus") ∧
    ∃ p, buildVisionProjector ⟨some "slot", 3, 5, 2, 0, none⟩ = .ok p :=
  ⟨((C2_unrecognized_error ⟨some "bogus", 3, 5, 0, 0, none⟩ "bogus" rfl).1
      (by decide)).1,
   (C2_unrecognized_error ⟨some "slot", 3, 5, 2, 0, none⟩ "slot" rfl).2
      (by decide)⟩

/-- C9: a configuration without the `mm_projector_type` attribute does not
make `build_vision_projector` raise: `getattr(config, 'mm_projector_type',
'linear')` (line 591) silently defaults to `linear`, and a single affine
layer `mm_hidden_size → hidden_size` is returned (line 594). -/
theorem C9_missing_attribute_defaults_linear (cfg : ProjectorConfig)
    (h : cfg.mm_projector_type = none) :
    buildVisionProjector cfg =
      .ok (.linearP cfg.mm_hidden_size cfg.hidden_size) := by
  unfold buildVisionProjector
  simp [h]

/-- Witness for C9 at a concrete attribute-less configuration. -/
theorem C9_missing_attribute_defaults_linear_witness :
    buildVisionProjector ⟨none, 7, 11, 0, 0, none⟩ = .ok (.linearP 7 11) :=
  C9_missing_attribute_defaults_linear ⟨none, 7, 11, 0, 0, none⟩ rfl

/-- Entry `(k, ch)` of a rank-2 tensor stored as a list of rows. -/
def rowVal (item : List (List ℚ)) (k ch : ℕ) : ℚ :=
  (item.getD k []).getD ch 0

/-- The Keys cubic-convolution kernel with a = -3/4: the weight function of
PyTorch's `bicubic` interpolation mode.  For t = |x|: `(a+2)t^3 - (a+3)t^2 + 1`
on [0,1], `a(t^3 - 5t^2 + 8t - 4)` on (1,2), and 0 beyond. -/
def cubicKernel (x : ℚ) : ℚ :=
  let t := |x|
  if t ≤ 1 then (5 / 4) * t ^ 3 - (9 / 4) * t ^ 2 + 1
  else if t < 2 then (-3 / 4) * (t ^ 3 - 5 * t ^ 2 + 8 * t - 4)
  else 0

/-- Clamp an integer source index into `[0, n-1]` (border replication of the
interpolation taps). -/
def clampIdx (n : ℕ) (i : ℤ) : ℕ := min (max 0 i).toNat (n - 1)

/-- Source coordinate of output pixel `i` when resizing a length-`src` axis to
length `tgt` with `align_corners=False`: `(i + 1/2) * src / tgt - 1/2`. -/
def srcCoord (src tgt i : ℕ) : ℚ := ((i : ℚ) + 1 / 2) * src / tgt - 1 / 2

/-- One-dimensional 4-tap cubic interpolation of the length-`n` line `g` at
coordinate `c`: taps at `⌊c⌋ - 1 .. ⌊c⌋ + 2`, weighted by `cubicKernel`,
indices clamped to the line. -/
def cubicInterp (n : ℕ) (g : ℕ → ℚ) (c : ℚ) : ℚ :=
  ∑ m ∈ Finset.range 4,
    cubicKernel (c - ((⌊c⌋ : ℚ) + (m : ℚ) - 1)) * g (clampIdx n (⌊c⌋ + (m : ℤ) - 1))

/-- Separable two-dimensional bicubic sample of the `src × src` grid `g` at
output pixel `(i, j)` of the `tgt × tgt` target grid (rows, then columns). -/
def bicubicSample (src tgt : ℕ) (g : ℕ → ℕ → ℚ) (i j : ℕ) : ℚ :=
  cubicInterp src (fun y => cubicInterp src (fun x => g y x) (srcCoord src tgt j))
    (srcCoord src tgt i)

/-- `get_abs_pos` (builder.py lines 197-213).  `abs_pos` is an `L × C` table;
`src_size = int(sqrt(L))`, `tgt_size = int(sqrt(tgt_size))` (line 201-202,
embedded as `Nat.sqrt`).  When the two grid sizes differ, the table is viewed
as a `src × src × C` spatial grid (`reshape(1, src, src, -1).permute(0,3,1,2)`),
bicubically resized to `tgt' × tgt'`, and flattened back to rows
(`permute(0,2,3,1).flatten(0,2)`), so output row `r` is spatial pixel
`(r / tgt', r % tgt')`; otherwise the table is returned unchanged. -/
def getAbsPos (absPos : List (List ℚ)) (tgtTokens : ℕ) : List (List ℚ) :=
  let srcSize := Nat.sqrt absPos.length
  let tgtSize := Nat.sqrt tgtTokens
  if srcSize ≠ tgtSize then
    (List.range (tgtSize * tgtSize)).map (fun r =>
      (List.range ((absPos.headD []).length)).map (fun ch =>
        bicubicSample srcSize tgtSize (fun y x => rowVal absPos (y * srcSize + x) ch)
          (r / tgtSize) (r % tgtSize)))
  else absPos

/-- C3 (amended): `get_abs_pos` returns the table unchanged when the integer
square root of the target token count equals the source grid size
`int(sqrt(L))`; when the two differ, the output has exactly
`int(sqrt(tgt_size)) ^ 2` rows — which equals `tgt_size` itself exactly when
`tgt_size` is a perfect square, but not in general. -/
theorem C3_get_abs_pos_amended (absPos : List (List ℚ)) (tgt : ℕ) :
    (Nat.sqrt tgt = Nat.sqrt absPos.length → getAbsPos absPos tgt = absPos) ∧
    (Nat.sqrt tgt ≠ Nat.sqrt absPos.length →
      (getAbsPos absPos tgt).length = Nat.sqrt tgt * Nat.sqrt tgt) := by
  constructor
  · intro h
    simp [getAbsPos, h]
  · intro h
    rw [getAbsPos, if_pos (fun he => h he.symm)]
    simp

/-- Concrete evaluation of `Nat.sqrt` through its bracketing property (the
definition itself is not kernel-reducible). -/
theorem sqrt_val (a n : ℕ) (h1 : a * a ≤ n) (h2 : n < (a + 1) * (a + 1)) :
    Nat.sqrt n = a :=
  (Nat.eq_sqrt.mpr ⟨h1, h2⟩).symm

/-- Witness for C3 (amended) on a concrete 2×2-grid table (4 rows, 1 channel):
a target of 4 tokens (grid size 2) returns the table unchanged, and a target
of 10 tokens (grid size 3) yields `Nat.sqrt 10 * Nat.sqrt 10 = 9` rows. -/
theorem C3_get_abs_pos_amended_witness :
    getAbsPos [[(0 : ℚ)], [1], [2], [3]] 4 = [[(0 : ℚ)], [1], [2], [3]] ∧
    (getAbsPos [[(0 : ℚ)], [1], [2], [3]] 10).length = Nat.sqrt 10 * Nat.sqrt 10 :=
  ⟨(C3_get_abs_pos_amended [[(0 : ℚ)], [1], [2], [3]] 4).1 (by simp),
   (C3_get_abs_pos_amended [[(0 : ℚ)], [1], [2], [3]] 10).2 (by
      simp only [List.length_cons, List.length_nil]
      rw [sqrt_val 3 10 (by decide) (by decide), sqrt_val 2 4 (by decide) (by decide)]
      decide)⟩

/-- C3 counterexample: the claim as stated is false when `tgt_size` is not a
perfect square: on a 4-row table (source grid size 2) and `tgt_size = 10`
(integer square root 3 ≠ 2), the output has 9 rows, not `tgt_size = 10`. -/
theorem C3_counterexample :
    (getAbsPos [[(0 : ℚ)], [1], [2], [3]] 10).length ≠ 10 := by
  simp only [getAbsPos, List.length_cons, List.length_nil]
  rw [sqrt_val 3 10 (by decide) (by decide), sqrt_val 2 4 (by decide) (by decide)]
  simp

/-- The `getD` of a mapped list below its length. -/
theorem getD_map_of_lt (f : α → β) (l : List α) (d : α) (e : β) {i : ℕ}
    (h : i < l.length) : (l.map f).getD i e = f (l.getD i d) := by
  rw [List.getD_eq_getElem _ _ (by simpa using h), List.getElem_map,
    List.getD_eq_getElem _ _ h]

/-- The `getD` of a function mapped over `List.range`. -/
theorem getD_range_map (f : ℕ → β) (e : β) {n i : ℕ} (h : i < n) :
    ((List.range n).map f).getD i e = f i := by
  rw [getD_map_of_lt f _ 0 e (by simpa using h)]
  congr 1
  rw [List.getD_eq_getElem _ _ (by simpa using h), List.getElem_range]

/-- Reindexing a sum over `range (n * b)` as a double sum over quotient and
remainder blocks. -/
theorem sum_range_mul_split (n b : ℕ) (f : ℕ → ℚ) :
    ∑ m ∈ Finset.range (n * b), f m =
      ∑ i ∈ Finset.range n, ∑ j ∈ Finset.range b, f (i * b + j) := by
  induction n with
  | zero => simp
  | succ n ih =>
    rw [Nat.succ_mul, Finset.sum_range_add, ih, Finset.sum_range_succ]

/-- Net index arithmetic of the reshape chain at builder.py lines 497-500.
Within one frame laid out as an `h × h` grid of tokens (`h = int(sqrt(res))`,
line 494; token `(y, x)` is row `y * h + x` of the frame, line 497),
`view(t, grid, h//grid, grid, h//grid, c)` (line 498) splits `y = g1 * bh + r1`
and `x = g2 * bh + r2` with `grid = int(sqrt(pool))`, `bh = h // grid`;
`permute(0, 1, 3, 2, 4, 5)` (line 499) orders indices `(g1, g2, r1, r2)`, and
`view(t, pool, res // pool, c)` (line 500) flattens `p = g1 * grid + g2` and
`m = r1 * bh + r2`.  This is the member token of pooled cell `p` at member
index `m`. -/
def poolGrid (res pool p m : ℕ) : ℕ :=
  let h := Nat.sqrt res
  let grid := Nat.sqrt pool
  let bh := h / grid
  (p / grid * bh + m / bh) * h + (p % grid * bh + m % bh)

/-- The pooled slot rows of one video clip (builder.py lines 492-501): row
`j` of `slot = torch.mean(feat, dim=-2).view(t * pool_num, c)` belongs to
frame `j / pool_num`, pooled cell `j % pool_num`, and averages the
`res // pool` member tokens of that cell (`torch.mean` over a dimension of
size `res // pool` divides by `res // pool`). -/
def poolSlotRows (res pool : ℕ) (item : List (List ℚ)) : List (List ℚ) :=
  let t := item.length / res
  let c := (item.headD []).length
  (List.range (t * pool)).map (fun j =>
    (List.range c).map (fun ch =>
      (∑ m ∈ Finset.range (res / pool),
        rowVal item (j / pool * res + poolGrid res pool (j % pool) m) ch) /
        ((res / pool : ℕ) : ℚ)))

/-- The clip's global token, `torch.mean(item, dim=0, keepdim=True)`
(builder.py line 502). -/
def poolGlobalRow (item : List (List ℚ)) : List ℚ :=
  (List.range ((item.headD []).length)).map (fun ch =>
    (∑ k ∈ Finset.range item.length, rowVal item k ch) / (item.length : ℚ))

/-- `concat_feat = torch.cat([item, slot, slot_global], dim=0)` for one clip
(builder.py line 503). -/
def poolConcatFeat (res pool : ℕ) (item : List (List ℚ)) : List (List ℚ) :=
  item ++ poolSlotRows res pool item ++ [poolGlobalRow item]

/-- The re-slicing loop of builder.py lines 507-511: successive slices
`concat_proj[feat_index : feat_index + n]` for the given row counts. -/
def sliceBy (l : List (List ℚ)) : List ℕ → List (List (List ℚ))
  | [] => []
  | n :: ns => l.take n :: sliceBy (l.drop n) ns

/-- `PoolProjector.forward` on a list (video) input (builder.py lines
488-512): per-clip concat features, one joint row-wise MLP application over
the concatenation of every clip's rows (line 506; the `nn.Sequential` MLP
acts on the channel dimension, i.e. row by row), then re-slicing at the same
row boundaries (lines 507-511). -/
def poolForwardVideo (mlpRow : List ℚ → List ℚ) (res pool : ℕ)
    (inputs : List (List (List ℚ))) : List (List (List ℚ)) :=
  let concatCombine := inputs.map (poolConcatFeat res pool)
  let concatProj := concatCombine.flatten.map mlpRow
  sliceBy concatProj (concatCombine.map List.length)

/-- Row count of one clip's `concat_feat`. -/
theorem poolConcatFeat_length (res pool : ℕ) (item : List (List ℚ)) :
    (poolConcatFeat res pool item).length =
      item.length + item.length / res * pool + 1 := by
  simp [poolConcatFeat, poolSlotRows]
  omega

/-- Each slice produced by `sliceBy` has exactly the requested row count, as
long as the rows to be sliced suffice. -/
theorem sliceBy_getD_length (ns : List ℕ) :
    ∀ (l : List (List ℚ)) (i : ℕ), i < ns.length → ns.sum ≤ l.length →
      ((sliceBy l ns).getD i []).length = ns.getD i 0 := by
  induction ns with
  | nil => intro l i hi _; simp at hi
  | cons n ns ih =>
    intro l i hi hsum
    simp only [List.sum_cons] at hsum
    cases i with
    | zero =>
      simp only [sliceBy, List.getD_cons_zero, List.length_take]
      omega
    | succ j =>
      simp only [sliceBy, List.getD_cons_succ]
      refine ih (l.drop n) j (by simpa using hi) ?_
      simp only [List.length_drop]
      omega

/-- C4 (amended): `PoolProjector.forward` on video (list) input: for every
clip whose token count is `t * resolution`, the number of rows in that clip's
output equals the original token count plus `t * pool_num` pooled tokens
(`pool_num` per frame, not `pool_num` per clip) plus one global token. -/
theorem C4_pool_video_rows_amended (mlpRow : List ℚ → List ℚ)
    (res pool t i : ℕ) (inputs : List (List (List ℚ)))
    (hres : 0 < res) (hi : i < inputs.length)
    (ht : (inputs.getD i []).length = t * res) :
    ((poolForwardVideo mlpRow res pool inputs).getD i []).length =
      t * res + t * pool + 1 := by
  simp only [poolForwardVideo]
  rw [sliceBy_getD_length _ _ i (by simpa using hi) (by
    simp [List.length_flatten, Function.comp_def])]
  rw [getD_map_of_lt List.length _ [] 0 (by simpa using hi),
    getD_map_of_lt (poolConcatFeat res pool) _ [] [] hi,
    poolConcatFeat_length, ht, Nat.mul_div_cancel t hres]

/-- Witness for C4 (amended): a single clip of 2 frames of a 2×2 grid
(`resolution = 4`, 8 tokens, one channel), `pool_num = 1`: the output clip
has 8 + 2·1 + 1 = 11 rows. -/
theorem C4_pool_video_rows_amended_witness :
    ((poolForwardVideo id 4 1 [List.replicate 8 [(0 : ℚ)]]).getD 0 []).length =
      2 * 4 + 2 * 1 + 1 :=
  C4_pool_video_rows_amended id 4 1 2 0 [List.replicate 8 [(0 : ℚ)]]
    (by decide) (by decide) (by decide)

/-- C4 counterexample: the claim as stated (rows = `pool_num` + 1 + original
token count) is false for clips of more than one frame: the code emits
`pool_num` pooled tokens per FRAME.  With `resolution = 4`, `pool_num = 1`
and a clip of `t = 2` frames (8 tokens), the output clip has 11 rows, while
the claim predicts `1 + 1 + 8 = 10`. -/
theorem C4_counterexample :
    ((poolForwardVideo id 4 1 [List.replicate 8 [(0 : ℚ)]]).getD 0 []).length ≠
      1 + 1 + 8 := by
  rw [C4_pool_video_rows_amended id 4 1 2 0 [List.replicate 8 [(0 : ℚ)]]
    (by decide) (by decide) (by decide)]
  decide

/-- The arithmetic mean of the member tokens of pooled cell `p`'s macro-grid
cell, written from the spec's words (spec section 4.5 / testable property 5):
cell `p` of the `g × g` macro-grid covers the `bh × bh` block of the frame's
`h × h` token grid at rows `p / g * bh ..` and columns `p % g * bh ..`, and
its mean is the sum of its `bh * bh` member tokens divided by their count.
Frame `t0`'s token `(y, x)` is row `t0 * res + y * h + x` of the clip. -/
def blockMeanSpec (res h g bh : ℕ) (item : List (List ℚ)) (t0 p ch : ℕ) : ℚ :=
  (∑ r1 ∈ Finset.range bh, ∑ r2 ∈ Finset.range bh,
    rowVal item (t0 * res + ((p / g * bh + r1) * h + (p % g * bh + r2))) ch) /
    ((bh * bh : ℕ) : ℚ)

/-- C5: PoolProjector block-mean pooling.  When `resolution = h²`,
`pool_num = g²` and `g ∣ h` (`bh = h / g`), pooled token `p` of frame `t0`
(row `t0 * pool_num + p` of the flattened slot tensor) equals the arithmetic
mean of the `resolution / pool_num` member tokens of its macro-grid cell. -/
theorem C5_pool_block_mean (res pool h g bh : ℕ) (item : List (List ℚ))
    (t0 p ch : ℕ) (hres : res = h * h) (hpool : pool = g * g)
    (hbh : h = g * bh) (hg : 0 < g) (hbh0 : 0 < bh)
    (ht0 : t0 < item.length / res) (hp : p < pool)
    (hch : ch < (item.headD []).length) :
    rowVal (poolSlotRows res pool item) (t0 * pool + p) ch =
      blockMeanSpec res h g bh item t0 p ch := by
  have hpool0 : 0 < pool := hpool ▸ Nat.mul_pos hg hg
  have hsr : Nat.sqrt res = h := by rw [hres, Nat.sqrt_eq]
  have hsp : Nat.sqrt pool = g := by rw [hpool, Nat.sqrt_eq]
  have hhg : h / g = bh := by rw [hbh, Nat.mul_div_cancel_left _ hg]
  have hrp : res / pool = bh * bh := by
    have : res = pool * (bh * bh) := by rw [hres, hpool, hbh]; ring
    rw [this, Nat.mul_div_cancel_left _ hpool0]
  have hj : t0 * pool + p < item.length / res * pool :=
    calc t0 * pool + p < t0 * pool + pool := Nat.add_lt_add_left hp _
    _ = (t0 + 1) * pool := by ring
    _ ≤ item.length / res * pool := Nat.mul_le_mul_right _ (by omega)
  have hcomm : t0 * pool + p = p + pool * t0 := by ring
  have hdiv : (t0 * pool + p) / pool = t0 := by
    rw [hcomm, Nat.add_mul_div_left _ _ hpool0, Nat.div_eq_of_lt hp, Nat.zero_add]
  have hmod : (t0 * pool + p) % pool = p := by
    rw [hcomm, Nat.add_mul_mod_self_left, Nat.mod_eq_of_lt hp]
  have hpg : ∀ r1 r2, r2 < bh → poolGrid res pool p (r1 * bh + r2) =
      (p / g * bh + r1) * h + (p % g * bh + r2) := by
    intro r1 r2 hr2
    simp only [poolGrid, hsr, hsp, hhg]
    have e1 : r1 * bh + r2 = bh * r1 + r2 := by ring
    have hd : (r1 * bh + r2) / bh = r1 := by
      rw [e1, Nat.mul_add_div hbh0, Nat.div_eq_of_lt hr2, Nat.add_zero]
    have hm : (r1 * bh + r2) % bh = r2 := by
      rw [e1, Nat.mul_add_mod, Nat.mod_eq_of_lt hr2]
    rw [hd, hm]
  simp only [rowVal, poolSlotRows]
  rw [getD_range_map _ _ hj, getD_range_map _ _ hch, hdiv, hmod, hrp,
    blockMeanSpec, sum_range_mul_split]
  congr 1
  refine Finset.sum_congr rfl fun r1 _ => Finset.sum_congr rfl fun r2 h2 => ?_
  rw [hpg r1 r2 (Finset.mem_range.mp h2)]
  rfl

/-- Witness for C5 on the spec's synthetic example: a single frame of a 4×4
grid (`resolution = 16`, values 0..15 in one channel) pooled to a 2×2
macro-grid (`pool_num = 4`), pooled cell 0 of frame 0, channel 0. -/
theorem C5_pool_block_mean_witness :
    rowVal (poolSlotRows 16 4
      [[(0 : ℚ)], [1], [2], [3], [4], [5], [6], [7],
       [8], [9], [10], [11], [12], [13], [14], [15]]) (0 * 4 + 0) 0 =
      blockMeanSpec 16 4 2 2
      [[(0 : ℚ)], [1], [2], [3], [4], [5], [6], [7],
       [8], [9], [10], [11], [12], [13], [14], [15]] 0 0 0 :=
  C5_pool_block_mean 16 4 4 2 2 _ 0 0 0 rfl rfl rfl (by decide) (by decide)
    (by decide) (by decide) (by decide)

/-- The rebalancing writes of `MultiProjector.forward` at training time
(builder.py lines 174-182): `idx_mlp`/`idx_sa` are the indices the incoming
assignment maps to 0 / to 1; if the mlp branch has no sample, entry `r` is
set to 0; else if the slot branch has no sample, entry `r` is set to 1;
otherwise the assignment is untouched.  The random index
`r = random.randint(0, B-1)` is passed as a parameter (the process-global
random source, spec section 5). -/
def rebalance (proj : List ℕ) (r : ℕ) : List ℕ :=
  if proj.count 0 = 0 then proj.set r 0
  else if proj.count 1 = 0 then proj.set r 1
  else proj

/-- `MultiProjector.forward` at training time (builder.py lines 169-194),
value level: `feat_mlp = self.mlp(inputs)` and `feat_sa = self.sa(inputs)`
are per-sample branch applications; after rebalancing, the output loop
(lines 187-192) appends `feat_mlp[i]` when sample `i` is assigned 0 and
`feat_sa[i]` when assigned 1, in input order.  (A sample assigned any other
value would contribute nothing and fail the `assert` of line 193.) -/
def multiTrainForward (fm fs : α → β) (inputs : List α) (proj : List ℕ)
    (r : ℕ) : List β :=
  let p := rebalance proj r
  (inputs.zip p).flatMap (fun xi =>
    (if xi.2 = 0 then [fm xi.1] else []) ++ (if xi.2 = 1 then [fs xi.1] else []))

/-- State-passing rendering of the training forward, making the in-place
write to the caller's `projector` tensor explicit: the returned state is
(output, final `inputs`, final `projector`).  The only index-assignments in
the body (lines 180 and 182) target `projector`; `inputs` is only read. -/
def multiTrainForwardState (fm fs : α → β) (inputs : List α) (proj : List ℕ)
    (r : ℕ) : List β × List α × List ℕ :=
  (multiTrainForward fm fs inputs proj r, inputs, rebalance proj r)

/-- Number of positions at which two assignment vectors differ. -/
def flipCount (a b : List ℕ) : ℕ :=
  (List.zipWith (fun x y => if x = y then 0 else 1) a b).sum

/-- A vector differs from itself in no position. -/
theorem flipCount_self (l : List ℕ) : flipCount l l = 0 := by
  induction l with
  | nil => rfl
  | cons x xs ih =>
    simp only [flipCount, List.zipWith_cons_cons, List.sum_cons, if_pos rfl] at ih ⊢
    simp [ih]

/-- Writing one entry changes exactly that entry (when the written value is
new). -/
theorem flipCount_set (l : List ℕ) (r v : ℕ) (hr : r < l.length) :
    flipCount l (l.set r v) = if l.getD r 0 = v then 0 else 1 := by
  induction l generalizing r with
  | nil => simp at hr
  | cons x xs ih =>
    cases r with
    | zero =>
      simp only [List.set, flipCount, List.zipWith_cons_cons, List.sum_cons,
        List.getD_cons_zero]
      have h0 := flipCount_self xs
      simp only [flipCount] at h0
      rw [h0]
      by_cases hxv : x = v <;> simp [hxv]
    | succ j =>
      simp only [List.set, flipCount, List.zipWith_cons_cons, List.sum_cons,
        List.getD_cons_succ, if_pos rfl]
      have := ih j (by simpa using hr)
      simp only [flipCount] at this
      simpa using this

/-- On a binary assignment the output loop emits exactly one row per sample,
in input order: the flatMap collapses to a zipWith selection. -/
theorem multi_select_binary (fm fs : α → β) :
    ∀ (inputs : List α) (p : List ℕ), (∀ v ∈ p, v = 0 ∨ v = 1) →
      ((inputs.zip p).flatMap (fun xi =>
        (if xi.2 = 0 then [fm xi.1] else []) ++
        (if xi.2 = 1 then [fs xi.1] else []))) =
      List.zipWith (fun x v => if v = 0 then fm x else fs x) inputs p := by
  intro inputs
  induction inputs with
  | nil => intro p _; simp
  | cons x xs ih =>
    intro p hp
    cases p with
    | nil => simp
    | cons v vs =>
      have hrest : ∀ u ∈ vs, u = 0 ∨ u = 1 := fun u hu => hp u (by simp [hu])
      rcases hp v (by simp) with h0 | h1
      · subst h0; simp [ih vs hrest]
      · subst h1; simp [ih vs hrest]

/-- C6 (amended): MultiProjector in training mode, for batches of size
`B ≥ 2`: when the supplied binary assignment vector is all-zero (all MLP) or
all-one (all slot), the forced rebalancing flips exactly one entry, after
which both branches receive at least one sample, and the i-th output element
is the chosen branch's result for the i-th input (the output is the
positional zip of inputs with the rebalanced assignment), with output length
`B`.  (For `B = 1` the flip still happens but both branches cannot be
served.) -/
theorem C6_multi_rebalance_amended (fm fs : α → β) (inputs : List α)
    (proj : List ℕ) (B r : ℕ) (hB : 2 ≤ B) (hlen : inputs.length = B)
    (hr : r < B)
    (hproj : proj = List.replicate B 0 ∨ proj = List.replicate B 1) :
    flipCount proj (rebalance proj r) = 1 ∧
    0 ∈ rebalance proj r ∧ 1 ∈ rebalance proj r ∧
    multiTrainForward fm fs inputs proj r =
      List.zipWith (fun x v => if v = 0 then fm x else fs x) inputs
        (rebalance proj r) ∧
    (multiTrainForward fm fs inputs proj r).length = B := by
  have hB0 : B ≠ 0 := by omega
  rcases hproj with h | h <;> subst h
  · have hc0 : (List.replicate B 0).count 0 = B := by
      simp [List.count_replicate]
    have hc1 : (List.replicate B 0).count 1 = 0 := by
      simp [List.count_replicate]
    have hreb : rebalance (List.replicate B 0) r = (List.replicate B 0).set r 1 := by
      simp [rebalance, hc0, hc1, hB0]
    have hrl : r < (List.replicate B 0).length := by simpa using hr
    have hbin : ∀ v ∈ rebalance (List.replicate B 0) r, v = 0 ∨ v = 1 := by
      intro v hv
      rw [hreb] at hv
      rcases List.mem_or_eq_of_mem_set hv with hm | he
      · exact Or.inl (List.eq_of_mem_replicate hm)
      · exact Or.inr he
    refine ⟨?_, ?_, ?_, ?_, ?_⟩
    · rw [hreb, flipCount_set _ _ _ hrl]
      rw [List.getD_eq_getElem _ _ hrl, List.getElem_replicate]
      simp
    · rw [hreb]
      have hi : (if r = 0 then 1 else 0) < ((List.replicate B 0).set r 1).length := by
        simp only [List.length_set, List.length_replicate]
        split <;> omega
      exact List.mem_iff_getElem.mpr ⟨(if r = 0 then 1 else 0), hi, by
        rw [List.getElem_set_ne (by split <;> omega), List.getElem_replicate]⟩
    · rw [hreb]
      have hi : r < ((List.replicate B 0).set r 1).length := by simpa using hr
      exact List.mem_iff_getElem.mpr ⟨r, hi, List.getElem_set_self _⟩
    · simp only [multiTrainForward]
      exact multi_select_binary fm fs _ _ hbin
    · simp only [multiTrainForward]
      rw [multi_select_binary fm fs _ _ hbin, List.length_zipWith, hreb]
      simp [hlen]
  · have hc0 : (List.replicate B 1).count 0 = 0 := by
      simp [List.count_replicate]
    have hreb : rebalance (List.replicate B 1) r = (List.replicate B 1).set r 0 := by
      simp [rebalance, hc0]
    have hrl : r < (List.replicate B 1).length := by simpa using hr
    have hbin : ∀ v ∈ rebalance (List.replicate B 1) r, v = 0 ∨ v = 1 := by
      intro v hv
      rw [hreb] at hv
      rcases List.mem_or_eq_of_mem_set hv with hm | he
      · exact Or.inr (List.eq_of_mem_replicate hm)
      · exact Or.inl he
    refine ⟨?_, ?_, ?_, ?_, ?_⟩
    · rw [hreb, flipCount_set _ _ _ hrl]
      rw [List.getD_eq_getElem _ _ hrl, List.getElem_replicate]
      simp
    · rw [hreb]
      have hi : r < ((List.replicate B 1).set r 0).length := by simpa using hr
      exact List.mem_iff_getElem.mpr ⟨r, hi, List.getElem_set_self _⟩
    · rw [hreb]
      have hi : (if r = 0 then 1 else 0) < ((List.replicate B 1).set r 0).length := by
        simp only [List.length_set, List.length_replicate]
        split <;> omega
      exact List.mem_iff_getElem.mpr ⟨(if r = 0 then 1 else 0), hi, by
        rw [List.getElem_set_ne (by split <;> omega), List.getElem_replicate]⟩
    · simp only [multiTrainForward]
      exact multi_select_binary fm fs _ _ hbin
    · simp only [multiTrainForward]
      rw [multi_select_binary fm fs _ _ hbin, List.length_zipWith, hreb]
      simp [hlen]

/-- Witness for C6 (amended) with `B = 2`, the all-one assignment and random
index 0: the rebalanced assignment is `[0, 1]`, one flip, both branches
served, output `[fm x0, fs x1]`. -/
theorem C6_multi_rebalance_amended_witness :
    flipCount [1, 1] (rebalance [1, 1] 0) = 1 ∧
    0 ∈ rebalance [1, 1] 0 ∧ 1 ∈ rebalance [1, 1] 0 ∧
    multiTrainForward (fun x : ℚ => x) (fun x : ℚ => x + 1) [5, 7] [1, 1] 0 =
      List.zipWith (fun x v => if v = 0 then x else x + 1) [(5 : ℚ), 7]
        (rebalance [1, 1] 0) ∧
    (multiTrainForward (fun x : ℚ => x) (fun x : ℚ => x + 1) [5, 7] [1, 1] 0).length = 2 :=
  C6_multi_rebalance_amended (fun x : ℚ => x) (fun x : ℚ => x + 1) [5, 7]
    [1, 1] 2 0 (by decide) (by decide) (by decide) (Or.inr (by decide))

/-- C6 counterexample: the claim as stated includes batches of size `B = 1`,
where it fails: with the all-one assignment `[1]` the rebalancing flips the
single entry to 0, after which the SlotAttention branch receives no sample
at all. -/
theorem C6_counterexample :
    rebalance [1] 0 = [0] ∧ ¬ (1 ∈ rebalance [1] 0) := by decide

/-- C10: MultiProjector.forward in training mode mutates the caller-supplied
assignment vector exactly when one branch receives zero samples (one entry
of the caller's tensor is overwritten with the flipped value), leaves it
unchanged when both branches already have at least one sample, and never
mutates the input feature tensor. -/
theorem C10_assignment_mutation (fm fs : α → β) (inputs : List α)
    (proj : List ℕ) (r : ℕ) (hr : r < proj.length) :
    ((proj.count 0 = 0 ∨ proj.count 1 = 0) →
      (multiTrainForwardState fm fs inputs proj r).2.2 ≠ proj) ∧
    (proj.count 0 ≠ 0 → proj.count 1 ≠ 0 →
      (multiTrainForwardState fm fs inputs proj r).2.2 = proj) ∧
    (multiTrainForwardState fm fs inputs proj r).2.1 = inputs := by
  refine ⟨?_, ?_, rfl⟩
  · intro hdisj hEq
    simp only [multiTrainForwardState] at hEq
    by_cases h0 : proj.count 0 = 0
    · have hreb : rebalance proj r = proj.set r 0 := by simp [rebalance, h0]
      rw [hreb] at hEq
      have hrs : r < (proj.set r 0).length := by simpa using hr
      have hv : (proj.set r 0).get ⟨r, hrs⟩ = 0 := List.getElem_set_self _
      have hmem : (0 : ℕ) ∈ proj := by
        rw [← hEq]
        exact List.mem_iff_getElem.mpr ⟨r, hrs, hv⟩
      exact (List.count_eq_zero.mp h0) hmem
    · have h1 : proj.count 1 = 0 := hdisj.resolve_left h0
      have hreb : rebalance proj r = proj.set r 1 := by simp [rebalance, h0, h1]
      rw [hreb] at hEq
      have hrs : r < (proj.set r 1).length := by simpa using hr
      have hv : (proj.set r 1).get ⟨r, hrs⟩ = 1 := List.getElem_set_self _
      have hmem : (1 : ℕ) ∈ proj := by
        rw [← hEq]
        exact List.mem_iff_getElem.mpr ⟨r, hrs, hv⟩
      exact (List.count_eq_zero.mp h1) hmem
  · intro h0 h1
    simp [multiTrainForwardState, rebalance, h0, h1]

/-- Witness for C10: with assignment `[1]` (no MLP sample) the caller's
vector is overwritten; with `[0, 1]` (both branches served) it is returned
untouched; the feature list is unchanged in both cases. -/
theorem C10_assignment_mutation_witness :
    (multiTrainForwardState (fun x : ℚ => x) (fun x : ℚ => x) [5] [1] 0).2.2 ≠ [1] ∧
    (multiTrainForwardState (fun x : ℚ => x) (fun x : ℚ => x) [5, 7] [0, 1] 0).2.2 = [0, 1] ∧
    (multiTrainForwardState (fun x : ℚ => x) (fun x : ℚ => x) [5] [1] 0).2.1 = [5] :=
  ⟨(C10_assignment_mutation (fun x : ℚ => x) (fun x : ℚ => x) [5] [1] 0
      (by decide)).1 (Or.inl (by decide)),
   (C10_assignment_mutation (fun x : ℚ => x) (fun x : ℚ => x) [5, 7] [0, 1] 0
      (by decide)).2.1 (by decide) (by decide),
   (C10_assignment_mutation (fun x : ℚ => x) (fun x : ℚ => x) [5] [1] 0
      (by decide)).2.2⟩

/-- Dot product of two channel vectors. -/
def dotQ (a b : List ℚ) : ℚ := (List.zipWith (· * ·) a b).sum

/-- `nn.Linear` applied to one channel vector: weight rows `W` (one row per
output feature) and bias `b`. -/
def linearV (W : List (List ℚ)) (b : List ℚ) (x : List ℚ) : List ℚ :=
  List.zipWith (fun row bi => dotQ row x + bi) W b

/-- `nn.LayerNorm` over one channel vector: subtract the mean, multiply by
the reciprocal square root of the biased variance (plus the norm's own
epsilon) — that scalar map is the parameter `rsqrtF`, the only
non-rational step — then the elementwise affine weights `g` / `be`. -/
def layerNormV (rsqrtF : ℚ → ℚ) (g be x : List ℚ) : List ℚ :=
  let mu := x.sum / (x.length : ℚ)
  let va := (x.map (fun xi => (xi - mu) ^ 2)).sum / (x.length : ℚ)
  List.zipWith (fun xi gb => (xi - mu) * rsqrtF va * gb.1 + gb.2) x (g.zip be)

/-- Scalar parameters of `SlotAttention` (builder.py lines 42-73): the
iteration count and epsilon of the constructor, the attention scale
`encoder_dims ** -0.5` (line 56, irrational, kept as a parameter), and the
transcendental scalar functions: softmax's `exp`, the MLP's `GELU`
(lines 67-71) and layer-norm's reciprocal square root. -/
structure SlotAttentionParams where
  iters : ℕ
  eps : ℚ
  scale : ℚ
  expF : ℚ → ℚ
  geluF : ℚ → ℚ
  rsqrtF : ℚ → ℚ

/-- Learned tensors of `SlotAttention` (builder.py lines 57-73): the slot
initialization embedding (`num_slots` rows), the q/k/v projections, the
two-layer MLP, the output head and the three layer-norm affine pairs. -/
structure SlotAttentionWeights where
  slotsEmbedding : List (List ℚ)
  Wq : List (List ℚ)
  bq : List ℚ
  Wk : List (List ℚ)
  bk : List ℚ
  Wv : List (List ℚ)
  bv : List ℚ
  mlpW1 : List (List ℚ)
  mlpB1 : List ℚ
  mlpW2 : List (List ℚ)
  mlpB2 : List ℚ
  headW : List (List ℚ)
  headB : List ℚ
  gIn : List ℚ
  bIn : List ℚ
  gSlots : List ℚ
  bSlots : List ℚ
  gFF : List ℚ
  bFF : List ℚ

/-- `dots.softmax(dim=1)` for one batch element's `dots` of shape
(slots × tokens) stored as rows-per-slot (builder.py line 96): softmax
normalizes over the SLOT axis, i.e. entry `(i, j)` is divided by the sum of
column `j` over all slot rows. -/
def softmaxDim1 (expF : ℚ → ℚ) (m : List (List ℚ)) : List (List ℚ) :=
  m.map (fun row => (List.range row.length).map (fun j =>
    expF (row.getD j 0) / (m.map (fun r => expF (r.getD j 0))).sum))

/-- `+ self.eps` (builder.py line 96). -/
def addEps (eps : ℚ) (m : List (List ℚ)) : List (List ℚ) :=
  m.map (fun row => row.map (· + eps))

/-- `attn / attn.sum(dim=-1, keepdim=True)` (builder.py line 97): each slot
row is renormalized by its own sum over the input tokens. -/
def renormRows (m : List (List ℚ)) : List (List ℚ) :=
  m.map (fun row => row.map (· / row.sum))

/-- The attention weights of one `SlotAttention` iteration (builder.py lines
96-97): softmax over the slot axis, epsilon added, then renormalization over
the input axis. -/
def slotAttnWeights (expF : ℚ → ℚ) (eps : ℚ) (dots : List (List ℚ)) :
    List (List ℚ) :=
  renormRows (addEps eps (softmaxDim1 expF dots))

/-- `dots = torch.einsum('bid,bjd->bij', q, k) * self.scale` for one batch
element (builder.py line 95). -/
def slotDots (scale : ℚ) (q k : List (List ℚ)) : List (List ℚ) :=
  q.map (fun qi => k.map (fun kj => dotQ qi kj * scale))

/-- `updates = torch.einsum('bjd,bij->bid', v, attn)` for one batch element
(builder.py line 99): slot `i`'s update at channel `d` is the attn-weighted
sum of the value rows. -/
def slotUpdates (attn v : List (List ℚ)) : List (List ℚ) :=
  attn.map (fun arow => (List.range ((v.headD []).length)).map (fun d =>
    ∑ j ∈ Finset.range v.length, arow.getD j 0 * rowVal v j d))

/-- The slot MLP (builder.py lines 67-71): Linear, GELU, Linear, applied to
one slot's channel vector. -/
def slotMlp (geluF : ℚ → ℚ) (W1 : List (List ℚ)) (b1 : List ℚ)
    (W2 : List (List ℚ)) (b2 : List ℚ) (x : List ℚ) : List ℚ :=
  linearV W2 b2 ((linearV W1 b1 x).map geluF)

/-- Elementwise combination of two row-lists of equal shape. -/
def combM (g : ℚ → ℚ → ℚ) (a b : List (List ℚ)) : List (List ℚ) :=
  List.zipWith (List.zipWith g) a b

/-- One iteration of the `SlotAttention` recurrence (builder.py lines
90-106): normalize the incoming slots (line 91), project to queries (line
94), scaled dot-product scores against the precomputed keys (line 95),
attention weights (lines 96-97), value updates (line 99), residual update
(line 103), MLP refinement on the pre-ff norm (line 104), and — on iteration
`iters - 2` only — the stop-gradient reset
`slots.detach() - init_slots.detach() + init_slots` (lines 105-106), which
at value level is `(slots - init) + init` (`detach` changes gradients, not
values). -/
def slotStep (P : SlotAttentionParams) (W : SlotAttentionWeights)
    (k v initSlots : List (List ℚ)) (t : ℕ) (slots : List (List ℚ)) :
    List (List ℚ) :=
  let slotsN := slots.map (layerNormV P.rsqrtF W.gSlots W.bSlots)
  let q := slotsN.map (linearV W.Wq W.bq)
  let attn := slotAttnWeights P.expF P.eps (slotDots P.scale q k)
  let s1 := combM (· + ·) slots (slotUpdates attn v)
  let s2 := combM (· + ·) s1
    ((s1.map (layerNormV P.rsqrtF W.gFF W.bFF)).map
      (slotMlp P.geluF W.mlpW1 W.mlpB1 W.mlpW2 W.mlpB2))
  if t = P.iters - 2 then combM (· + ·) (combM (· - ·) s2 initSlots) initSlots
  else s2

/-- `SlotAttention.forward` (builder.py lines 75-110): per batch element,
layer-norm the inputs (line 77), project keys and values once (lines 78-79),
initialize the slots from the learned embedding broadcast over the batch
(lines 86-87), run `iters` rounds of `slotStep` (lines 89-106), and project
the final slots through the output head (line 108). -/
def slotAttentionForward (P : SlotAttentionParams) (W : SlotAttentionWeights)
    (inputs : List (List (List ℚ))) : List (List (List ℚ)) :=
  inputs.map (fun inp =>
    let inpN := inp.map (layerNormV P.rsqrtF W.gIn W.bIn)
    let k := inpN.map (linearV W.Wk W.bk)
    let v := inpN.map (linearV W.Wv W.bv)
    let slots := (List.range P.iters).foldl
      (fun s t => slotStep P W k v W.slotsEmbedding t s) W.slotsEmbedding
    slots.map (linearV W.headW W.headB))

/-- A rows-by-cols shape statement for a row-list tensor. -/
def Shaped (rows cols : ℕ) (m : List (List ℚ)) : Prop :=
  m.length = rows ∧ ∀ r ∈ m, r.length = cols

/-- Row-wise maps transport shapes. -/
theorem shaped_map_rows {f : List ℚ → List ℚ} {m : List (List ℚ)}
    {S C C' : ℕ} (hm : Shaped S C m)
    (hf : ∀ r : List ℚ, r.length = C → (f r).length = C') :
    Shaped S C' (m.map f) := by
  refine ⟨by simp [hm.1], ?_⟩
  intro r hr
  rcases List.mem_map.mp hr with ⟨x, hx, rfl⟩
  exact hf x (hm.2 x hx)

/-- Rows of an elementwise combination of same-shaped tensors. -/
theorem combM_rows (g : ℚ → ℚ → ℚ) {C : ℕ} :
    ∀ (a b : List (List ℚ)), (∀ r ∈ a, r.length = C) →
      (∀ r ∈ b, r.length = C) → ∀ r ∈ combM g a b, r.length = C := by
  intro a
  induction a with
  | nil => intro b _ _ r hr; simp [combM] at hr
  | cons x xs ih =>
    intro b hha hhb r hr
    cases b with
    | nil => simp [combM] at hr
    | cons y ys =>
      simp only [combM, List.zipWith_cons_cons, List.mem_cons] at hr
      rcases hr with rfl | hr
      · simp [List.length_zipWith, hha x (by simp), hhb y (by simp)]
      · exact ih ys (fun r h => hha r (by simp [h])) (fun r h => hhb r (by simp [h]))
          r hr

/-- Elementwise combination of same-shaped tensors keeps the shape. -/
theorem shaped_combM (g : ℚ → ℚ → ℚ) {S C : ℕ} {a b : List (List ℚ)}
    (ha : Shaped S C a) (hb : Shaped S C b) : Shaped S C (combM g a b) := by
  refine ⟨by simp [combM, List.length_zipWith, ha.1, hb.1], ?_⟩
  exact combM_rows g a b ha.2 hb.2

/-- Length of an affine layer's output: one entry per (weight row, bias)
pair. -/
theorem linearV_length (W : List (List ℚ)) (b x : List ℚ) :
    (linearV W b x).length = min W.length b.length := by
  simp [linearV, List.length_zipWith]

/-- Length of a layer-normed vector. -/
theorem layerNormV_length (rsqrtF : ℚ → ℚ) (g be x : List ℚ) :
    (layerNormV rsqrtF g be x).length =
      min x.length (min g.length be.length) := by
  simp [layerNormV, List.length_zipWith, List.length_zip]

/-- Head element of a nonempty row-list with constant row length. -/
theorem headD_length {m : List (List ℚ)} {c : ℕ} (hne : m ≠ [])
    (h : ∀ r ∈ m, r.length = c) : (m.headD []).length = c := by
  cases m with
  | nil => exact absurd rfl hne
  | cons x xs => exact h x (by simp)

/-- One `slotStep` keeps the slots tensor `S × C`-shaped (the attention
matrix's row length never feeds a shape: `slotUpdates` emits rows of the
value tensor's channel width). -/
theorem slotStep_shape (P : SlotAttentionParams) (W : SlotAttentionWeights)
    {k v initSlots slots : List (List ℚ)} {S C N : ℕ} (t : ℕ)
    (hWq : W.Wq.length = C) (hbq : W.bq.length = C)
    (hW2 : W.mlpW2.length = C) (hb2 : W.mlpB2.length = C)
    (hgS : W.gSlots.length = C) (hbS : W.bSlots.length = C)
    (hgF : W.gFF.length = C) (hbF : W.bFF.length = C)
    (hv : Shaped N C v) (hN : 1 ≤ N)
    (hinit : Shaped S C initSlots) (hs : Shaped S C slots) :
    Shaped S C (slotStep P W k v initSlots t slots) := by
  have hvne : v ≠ [] := by
    intro h
    rw [h] at hv
    simp only [Shaped, List.length_nil] at hv
    omega
  have hvh : (v.headD []).length = C := headD_length hvne hv.2
  have hLN : ∀ g be : List ℚ, g.length = C → be.length = C →
      ∀ m : List (List ℚ), Shaped S C m →
        Shaped S C (m.map (layerNormV P.rsqrtF g be)) := by
    intro g be hg hbe m hm
    exact shaped_map_rows hm (fun r hr => by
      rw [layerNormV_length, hr, hg, hbe]; simp)
  have hUpd : ∀ attn : List (List ℚ), attn.length = S →
      Shaped S C (slotUpdates attn v) := by
    intro attn hlen
    refine ⟨by simp [slotUpdates, hlen], ?_⟩
    intro r hr
    rcases List.mem_map.mp hr with ⟨arow, _, rfl⟩
    rw [List.length_map, List.length_range]
    exact hvh
  have hMlp : ∀ m : List (List ℚ), Shaped S C m →
      Shaped S C ((m.map (layerNormV P.rsqrtF W.gFF W.bFF)).map
        (slotMlp P.geluF W.mlpW1 W.mlpB1 W.mlpW2 W.mlpB2)) := by
    intro m hm
    exact shaped_map_rows (hLN W.gFF W.bFF hgF hbF m hm) (fun r _ => by
      rw [slotMlp, linearV_length, hW2, hb2]; simp)
  have hq : Shaped S C ((slots.map (layerNormV P.rsqrtF W.gSlots W.bSlots)).map
      (linearV W.Wq W.bq)) :=
    shaped_map_rows (hLN W.gSlots W.bSlots hgS hbS slots hs) (fun r _ => by
      rw [linearV_length, hWq, hbq]; simp)
  have hattnLen : (slotAttnWeights P.expF P.eps (slotDots P.scale
      ((slots.map (layerNormV P.rsqrtF W.gSlots W.bSlots)).map
        (linearV W.Wq W.bq)) k)).length = S := by
    simp [slotAttnWeights, renormRows, addEps, softmaxDim1, slotDots, hs.1]
  have hs1 := shaped_combM (· + ·) hs (hUpd _ hattnLen)
  have hs2 := shaped_combM (· + ·) hs1 (hMlp _ hs1)
  simp only [slotStep]
  split
  · exact shaped_combM _ (shaped_combM _ hs2 hinit) hinit
  · exact hs2

/-- A shape invariant survives a left fold. -/
theorem foldl_shape {g : ℕ → List (List ℚ) → List (List ℚ)} {S C : ℕ}
    (hg : ∀ t m, Shaped S C m → Shaped S C (g t m)) :
    ∀ (l : List ℕ) (m : List (List ℚ)), Shaped S C m →
      Shaped S C (l.foldl (fun s t => g t s) m) := by
  intro l
  induction l with
  | nil => intro m hm; exact hm
  | cons x xs ih => intro m hm; exact ih _ (hg x m hm)

/-- C7: `SlotAttention.forward` on a batch of shape (B, N, C) with B, N ≥ 1
(and well-formed learned weights for encoder width C, `num_slots = S`,
`out_dim = D`) produces output of shape (B, num_slots, out_dim). -/
theorem C7_slot_attention_output_shape (P : SlotAttentionParams)
    (W : SlotAttentionWeights) (inputs : List (List (List ℚ)))
    (B N C S D : ℕ) (hB : 1 ≤ B) (hN : 1 ≤ N)
    (hinLen : inputs.length = B)
    (hin : ∀ inp ∈ inputs, inp.length = N ∧ ∀ row ∈ inp, row.length = C)
    (hWq : W.Wq.length = C) (hbq : W.bq.length = C)
    (hWk : W.Wk.length = C) (hbk : W.bk.length = C)
    (hWv : W.Wv.length = C) (hbv : W.bv.length = C)
    (hW2 : W.mlpW2.length = C) (hb2 : W.mlpB2.length = C)
    (hgI : W.gIn.length = C) (hbI : W.bIn.length = C)
    (hgS : W.gSlots.length = C) (hbS : W.bSlots.length = C)
    (hgF : W.gFF.length = C) (hbF : W.bFF.length = C)
    (hHd : W.headW.length = D) (hHdB : W.headB.length = D)
    (hS : W.slotsEmbedding.length = S)
    (hSC : ∀ r ∈ W.slotsEmbedding, r.length = C) :
    (slotAttentionForward P W inputs).length = B ∧
    ∀ out ∈ slotAttentionForward P W inputs,
      out.length = S ∧ ∀ row ∈ out, row.length = D := by
  constructor
  · simp [slotAttentionForward, hinLen]
  · intro out hout
    simp only [slotAttentionForward] at hout
    rcases List.mem_map.mp hout with ⟨inp, hinp, rfl⟩
    obtain ⟨hNlen, hrows⟩ := hin inp hinp
    have hinpN : Shaped N C (inp.map (layerNormV P.rsqrtF W.gIn W.bIn)) :=
      shaped_map_rows ⟨hNlen, hrows⟩ (fun r hr => by
        rw [layerNormV_length, hr, hgI, hbI]; simp)
    have hk : Shaped N C ((inp.map (layerNormV P.rsqrtF W.gIn W.bIn)).map
        (linearV W.Wk W.bk)) :=
      shaped_map_rows hinpN (fun r _ => by rw [linearV_length, hWk, hbk]; simp)
    have hv : Shaped N C ((inp.map (layerNormV P.rsqrtF W.gIn W.bIn)).map
        (linearV W.Wv W.bv)) :=
      shaped_map_rows hinpN (fun r _ => by rw [linearV_length, hWv, hbv]; simp)
    have hslots : Shaped S C ((List.range P.iters).foldl
        (fun s t => slotStep P W
          ((inp.map (layerNormV P.rsqrtF W.gIn W.bIn)).map (linearV W.Wk W.bk))
          ((inp.map (layerNormV P.rsqrtF W.gIn W.bIn)).map (linearV W.Wv W.bv))
          W.slotsEmbedding t s) W.slotsEmbedding) :=
      foldl_shape (fun t m hm => slotStep_shape P W t hWq hbq hW2 hb2 hgS hbS
        hgF hbF hv hN ⟨hS, hSC⟩ hm) _ _ ⟨hS, hSC⟩
    refine ⟨by simpa using hslots.1, ?_⟩
    intro row hrow
    rcases List.mem_map.mp hrow with ⟨srow, _, rfl⟩
    rw [linearV_length, hHd, hHdB]
    simp

/-- Concrete 1-dimensional slot-attention parameters for the witness. -/
def saP1 : SlotAttentionParams := ⟨3, 1 / 10000, 1, fun _ => 1, id, id⟩

/-- Concrete 1-dimensional slot-attention weights for the witness
(one slot, encoder width 1, out width 1). -/
def saW1 : SlotAttentionWeights :=
  ⟨[[0]], [[1]], [0], [[1]], [0], [[1]], [0], [[1]], [0], [[1]], [0],
   [[1]], [0], [1], [0], [1], [0], [1], [0]⟩

/-- Witness for C7 at B = N = C = S = D = 1 on the zero input. -/
theorem C7_slot_attention_output_shape_witness :
    (slotAttentionForward saP1 saW1 [[[(0 : ℚ)]]]).length = 1 ∧
    ∀ out ∈ slotAttentionForward saP1 saW1 [[[(0 : ℚ)]]],
      out.length = 1 ∧ ∀ row ∈ out, row.length = 1 :=
  C7_slot_attention_output_shape saP1 saW1 [[[(0 : ℚ)]]] 1 1 1 1 1
    (by decide) (by decide) (by decide) (by decide)
    rfl rfl rfl rfl rfl rfl rfl rfl rfl rfl rfl rfl rfl rfl rfl rfl rfl
    (by decide)

/-- Sums distribute over a per-entry division. -/
theorem sum_map_div (l : List ℚ) (c : ℚ) :
    (l.map (· / c)).sum = l.sum / c := by
  induction l with
  | nil => simp
  | cons x xs ih => simp [ih, add_div]

/-- C8: in every SlotAttention iteration the attention weights are
`softmax(scale * q·k, dim = slot axis) + eps` renormalized over the input
axis (`slotAttnWeights`, builder.py lines 95-97).  With `exp` strictly
positive (as the real exponential is; here `expF` is that abstracted scalar
map) and `eps > 0` (default `1e-4`), every renormalization denominator — a
row sum of `softmax + eps` over the N ≥ 1 input tokens — is strictly
positive, and after renormalization each slot's weights over the N input
tokens sum to exactly 1. -/
theorem C8_attention_weights (expF : ℚ → ℚ) (eps : ℚ)
    (dots : List (List ℚ)) (N : ℕ)
    (hexp : ∀ x, 0 < expF x) (heps : 0 < eps) (hN : 1 ≤ N)
    (hrows : ∀ row ∈ dots, row.length = N) :
    (∀ row ∈ addEps eps (softmaxDim1 expF dots), 0 < row.sum) ∧
    (∀ row ∈ slotAttnWeights expF eps dots, row.sum = 1) := by
  have hpos : ∀ row ∈ addEps eps (softmaxDim1 expF dots), 0 < row.sum := by
    intro row hrow
    simp only [addEps, softmaxDim1] at hrow
    rcases List.mem_map.mp hrow with ⟨srow, hsrow, rfl⟩
    rcases List.mem_map.mp hsrow with ⟨drow, hdrow, rfl⟩
    have hdne : dots ≠ [] := by
      intro h
      rw [h] at hdrow
      simp at hdrow
    apply List.sum_pos
    · intro x hx
      rcases List.mem_map.mp hx with ⟨y, hy, rfl⟩
      rcases List.mem_map.mp hy with ⟨j, _, rfl⟩
      have hcol : 0 < (dots.map (fun r => expF (r.getD j 0))).sum := by
        apply List.sum_pos
        · intro z hz
          rcases List.mem_map.mp hz with ⟨r, _, rfl⟩
          exact hexp _
        · simpa using hdne
      have hq := div_pos (hexp (drow.getD j 0)) hcol
      linarith
    · apply List.ne_nil_of_length_pos
      rw [List.length_map, List.length_map, List.length_range,
        hrows drow hdrow]
      omega
  refine ⟨hpos, ?_⟩
  intro row hrow
  simp only [slotAttnWeights, renormRows] at hrow
  rcases List.mem_map.mp hrow with ⟨rr, hrr, rfl⟩
  rw [sum_map_div, div_self (ne_of_gt (hpos rr hrr))]

/-- Witness for C8 on the 1×1 score matrix `[[0]]` with the constant-1
positive scalar map and `eps = 1e-4`. -/
theorem C8_attention_weights_witness :
    (∀ row ∈ addEps (1 / 10000) (softmaxDim1 (fun _ => 1) [[(0 : ℚ)]]),
      0 < row.sum) ∧
    (∀ row ∈ slotAttnWeights (fun _ => 1) (1 / 10000) [[(0 : ℚ)]],
      row.sum = 1) :=
  C8_attention_weights (fun _ => 1) (1 / 10000) [[(0 : ℚ)]] 1
    (fun _ => zero_lt_one) (by norm_num) (by decide) (by decide)
